import Mathlib

/-!
Verification of the graph synchronization layer of the MaCAD25 thesis UI
(`src/ui/app.js`, `src/unnamed/part_000`, `src/unnamed/part_001`).

The JavaScript is embedded shallowly:
* JSON/JavaScript values become the inductive `JVal`; a missing object key and
  the value `undefined` are both represented by an `Option.none` lookup result,
  and JS `x != null` (loose) corresponds to `jgetNN` returning `some`.
* Network effects are passed explicitly: each `fetch` + `r.json()` round trip
  is an element of `NetResult` supplied by an environment function, and the
  retry loop additionally returns the trace of attempts and backoff delays.
* Timers become explicit state (`PollSt`, `UISt`) with the interval callbacks
  embedded as state transformers; `clearInterval` semantics are modelled by
  ticks being no-ops when the corresponding flag is off.
-/

namespace GraphSync

/-- A JavaScript/JSON value. `undefined` is not a constructor: an absent value
is modelled as a failed (`none`) lookup. -/
inductive JVal where
  | null
  | bool (b : Bool)
  | num (n : Int)
  | str (s : String)
  | arr (xs : List JVal)
  | obj (fields : List (String × JVal))

/-- The own enumerable fields of an object, in insertion order. -/
abbrev JObj := List (String × JVal)

/-- JS truthiness (`!e` is `truthy e = false`). `NaN` does not occur in the
model since numbers are embedded as integers. -/
def truthy : JVal → Bool
  | .null => false
  | .bool b => b
  | .num n => n != 0
  | .str s => s != ""
  | .arr _ => true
  | .obj _ => true

/-- First binding of key `k` in the field list of an object (JS objects have unique
keys; first-match is the consistent convention everywhere in this file). -/
def lookupField : JObj → String → Option JVal
  | [], _ => none
  | (k', v) :: rest, k => if k' = k then some v else lookupField rest k

/-- Own enumerable fields of an arbitrary value, as used by object spread:
objects expose their fields, arrays and strings expose index keys, other
primitives expose nothing. -/
def fieldsOf : JVal → JObj
  | .obj fs => fs
  | .arr xs => (xs.enum.map fun p => (Nat.repr p.1, p.2))
  | .str s => (s.data.enum.map fun p => (Nat.repr p.1, .str (String.mk [p.2])))
  | _ => []

/-- Property access `v.k` (`v?.k`): `none` is JS `undefined` (also for access
on `null`/primitives, where the properties used by this code do not exist). -/
def jget : JVal → String → Option JVal
  | .obj fs, k => lookupField fs k
  | _, _ => none

/-- Property access combined with the JS test `x != null`: `some w` exactly
when the property is present and neither `null` nor `undefined`. -/
def jgetNN (v : JVal) (k : String) : Option JVal :=
  match jget v k with
  | some .null => none
  | some w => some w
  | none => none

/-- Rest-spread `const \x7b k1, k2, ...rest \x7d = e`: drop the named keys. -/
def removeKeys (fs : JObj) (ks : List String) : JObj :=
  fs.filter fun p => !(ks.contains p.1)

/-- Spread-assign `\x7b ...rest, k: v \x7d`: overwrite in place if `k` is
already a key (JS keeps the original key position), else append. -/
def setKey : JObj → String → JVal → JObj
  | [], k, v => [(k, v)]
  | (k', v') :: rest, k, v =>
      if k' = k then (k, v) :: rest else (k', v') :: setKey rest k v

/-- JS `Array.isArray(x) ? x : []` on an optional-chained access result. -/
def arrOrNil : Option JVal → List JVal
  | some (.arr xs) => xs
  | _ => []

/-- The extraction `Array.isArray(raw?.links) ? raw.links : Array.isArray(raw?.edges) ?
raw.edges : []` — the edge-list extraction shared by the adapter, the empty
check and the enriched tag. -/
def edgesOrLinks (raw : JVal) : List JVal :=
  match jget raw "links" with
  | some (.arr xs) => xs
  | _ => match jget raw "edges" with
         | some (.arr xs) => xs
         | _ => []

/-- JS strict equality `===` as used on revision signals: value equality on
primitives; freshly parsed objects/arrays are distinct heap references, so
`===` on them is `false` (each poll tick re-parses the response body). -/
def jsStrictEq : JVal → JVal → Bool
  | .null, .null => true
  | .bool a, .bool b => a == b
  | .num a, .num b => a == b
  | .str a, .str b => a == b
  | _, _ => false

/-! ## GraphAdapter (`adaptGraph`, `src/ui/app.js` lines 38-56) -/

/-- One node through the adapter:
`inNodes.map(n => \x7b const \x7b x, y, ...rest \x7d = (n || \x7b\x7d); return rest; \x7d)`. -/
def adaptNode (n : JVal) : JObj :=
  removeKeys (fieldsOf (if truthy n then n else .obj [])) ["x", "y"]

/-- Resolution of `const source = (e.source != null) ? e.source :
(hasUV ? e.u : undefined)` where `hasUV = (e.u != null && e.v != null)`. -/
def edgeSource (e : JVal) : Option JVal :=
  match jgetNN e "source" with
  | some s => some s
  | none =>
      if (jgetNN e "u").isSome && (jgetNN e "v").isSome then jgetNN e "u"
      else none

/-- Resolution of `const target = (e.target != null) ? e.target :
(hasUV ? e.v : undefined)`. -/
def edgeTarget (e : JVal) : Option JVal :=
  match jgetNN e "target" with
  | some t => some t
  | none =>
      if (jgetNN e "u").isSome && (jgetNN e "v").isSome then jgetNN e "v"
      else none

/-- One edge through the adapter (`src/ui/app.js` lines 45-53); `none` is the
`return null` later removed by `.filter(Boolean)` (a falsy `e`, an
unresolvable endpoint): drop `u`/`v`, then spread-assign the resolved
`source`/`target`. -/
def adaptEdge (e : JVal) : Option JObj :=
  if truthy e = false then none
  else
    match edgeSource e, edgeTarget e with
    | some s, some t =>
        some (setKey (setKey (removeKeys (fieldsOf e) ["u", "v"])
                "source" s) "target" t)
    | _, _ => none

/-- The canonical graph produced by `adaptGraph`. The JS result also carries
`links`, always the very same array as `edges`; `Graph.toRaw` reproduces that
dual key. -/
structure Graph where
  nodes : List JObj
  edges : List JObj
  meta : JVal

/-- JS `raw?.meta || \x7b\x7d`. -/
def metaOf (raw : JVal) : JVal :=
  match jget raw "meta" with
  | some m => if truthy m then m else .obj []
  | none => .obj []

/-- The graph adapter (`src/ui/app.js` lines 38-56, identical in
`src/unnamed/part_000` and `src/unnamed/part_001`). -/
def adaptGraph (raw : JVal) : Graph :=
  let inNodes := arrOrNil (jget raw "nodes")
  let inEdges := edgesOrLinks raw
  { nodes := inNodes.map adaptNode
    edges := inEdges.filterMap adaptEdge
    meta := metaOf raw }

/-- The JS return value of the adapter, `\x7b nodes, edges, links: edges, meta \x7d`,
re-read as a raw payload (the canonical output treated as raw input). -/
def Graph.toRaw (g : Graph) : JVal :=
  .obj [("nodes", .arr (g.nodes.map .obj)),
        ("edges", .arr (g.edges.map .obj)),
        ("links", .arr (g.edges.map .obj)),
        ("meta", g.meta)]

/-! ## RetryingFetcher (`fetchJsonWithRetry`, `src/ui/app.js` lines 11-35,
`src/unnamed/part_001` lines 13-36) -/

/-- The failures a single attempt can throw: the `new Error(...)` values
thrown by the code itself plus the fetch/parse rejections of the runtime. -/
inductive JsErr where
  | http (status : Nat)
  | emptyGraph
  | networkFailure
  | parseError
  | noIterations
deriving DecidableEq

/-- Rendering `String(e)` of each modelled error, as the JS runtime shows it. -/
def errString : JsErr → String
  | .http s => "Error: HTTP " ++ Nat.repr s
  | .emptyGraph => "Error: Empty graph payload"
  | .networkFailure => "TypeError: Failed to fetch"
  | .parseError => "SyntaxError: Unexpected token in JSON"
  | .noIterations => "Error: No enriched iterations found (no it[i].json)."

/-- Rendering `String(e)` where `e` may be the never-assigned `let lastErr` (JS
`undefined`, rendered "undefined"). -/
def errOptString : Option JsErr → String
  | none => "undefined"
  | some e => errString e

/-- Outcome of one `fetch(url)` + `r.json()` round trip, supplied by the
environment: the fetch promise rejects, or a response with a status and a
body that parses (`some`) or does not (`none`). -/
inductive NetResult where
  | netErr
  | resp (status : Nat) (body : Option JVal)

/-- Observable events of one `fetchJsonWithRetry` call: the start of the
i-th attempt, and each backoff sleep with its duration in ms. -/
inductive REvent where
  | attempt (i : Nat)
  | delay (ms : Nat)
deriving DecidableEq

/-- The empty-payload test of lines 20-24: `nodes` (if an array) and
`links`-else-`edges` (if arrays) are both empty. -/
def graphIsEmpty (j : JVal) : Bool :=
  (arrOrNil (jget j "nodes")).isEmpty && (edgesOrLinks j).isEmpty

/-- The body of one loop iteration of `fetchJsonWithRetry` up to the
`return j` / `throw`: `r.ok` is `200 <= status <= 299` per the fetch
specification. -/
def attemptOnce (env : Nat → NetResult) (i : Nat) (allowEmpty : Bool) :
    Except JsErr JVal :=
  match env i with
  | .netErr => .error .networkFailure
  | .resp status body =>
      if 200 ≤ status ∧ status ≤ 299 then
        match body with
        | none => .error .parseError
        | some j =>
            if !allowEmpty && graphIsEmpty j then .error .emptyGraph
            else .ok j
      else .error (.http status)

/-- The `for (let i = 0; i < attempts; i++)` loop. `rem` counts the remaining
iterations (`attempts - i`); the result is paired with the event trace.
Exhaustion throws `lastErr`, which is JS `undefined` (`none`) when no
iteration ever ran. -/
def retryLoop (env : Nat → NetResult) (attempts delayMs : Nat)
    (allowEmpty : Bool) : Nat → Nat → Option JsErr →
    Except (Option JsErr) JVal × List REvent
  | 0, _, lastErr => (.error lastErr, [])
  | rem + 1, i, _ =>
      match attemptOnce env i allowEmpty with
      | .ok j => (.ok j, [.attempt i])
      | .error e =>
          let next := retryLoop env attempts delayMs allowEmpty rem (i + 1) (some e)
          if i < attempts - 1 then
            (next.1, .attempt i :: .delay (delayMs * (1 + i)) :: next.2)
          else
            (next.1, .attempt i :: next.2)

/-- The function `fetchJsonWithRetry(url, attempts, delayMs, \x7b allowEmpty \x7d)`
(`src/unnamed/part_001` lines 13-36). The `src/ui/app.js` /
`src/unnamed/part_000` variant (lines 11-35) is textually this function with
`allowEmpty` fixed to `false`. -/
def fetchJsonWithRetry (env : Nat → NetResult) (attempts delayMs : Nat)
    (allowEmpty : Bool := false) : Except (Option JsErr) JVal × List REvent :=
  retryLoop env attempts delayMs allowEmpty attempts 0 none

/-- Leading-match test on character lists, for `String.includes`. -/
def charsLead : List Char → List Char → Bool
  | [], _ => true
  | _ :: _, [] => false
  | a :: as, b :: bs => a == b && charsLead as bs

/-- Scanning for `text.includes(pat)`. -/
def charsContain : List Char → List Char → Bool
  | [], pat => pat.isEmpty
  | text@(_ :: rest), pat => charsLead pat text || charsContain rest pat

/-- JS `String.prototype.includes`. -/
def strContains (text pat : String) : Bool :=
  charsContain text.data pat.data

/-- The backoff sleep immediately preceding the `i`-th attempt event in a
trace, if any. -/
def delayBeforeAttempt : List REvent → Nat → Option Nat
  | .delay d :: .attempt j :: tl, i =>
      if j = i then some d else delayBeforeAttempt (.attempt j :: tl) i
  | _ :: tl, i => delayBeforeAttempt tl i
  | [], _ => none

/-- How many attempts a trace records. -/
def countAttempts (tr : List REvent) : Nat :=
  (tr.filter fun ev => match ev with | .attempt _ => true | _ => false).length

/-! ## LatestIterationLocator (`src/unnamed/part_000` lines 140-191) -/

/-- The value of `fetchEnrichedIfExists(n)`: `\x7b exists, n, data? \x7d`
(the `data` key is only present on existence). -/
structure ProbeOutcome where
  itExists : Bool
  n : Nat
  data : Option JVal

/-- The probe `fetchEnrichedIfExists(n)` (`src/unnamed/part_000` lines 140-150): a
single-attempt fetch of `it{n}.json`; a caught error whose rendering contains
"HTTP 404" means the file does not exist, anything else is re-thrown. The
environment maps each iteration index to its fetch outcome. -/
def fetchEnrichedIfExists (env : Nat → NetResult) (n : Nat) :
    Except (Option JsErr) ProbeOutcome :=
  match (fetchJsonWithRetry (fun _ => env n) 1 0).1 with
  | .ok j => .ok { itExists := true, n := n, data := some j }
  | .error e =>
      if strContains (errOptString e) "HTTP 404" then
        .ok { itExists := false, n := n, data := none }
      else .error e

/-- Phase 1 of `findLatestEnrichedCandidate` (lines 152-166): double `n`
while the probe exists; stop on the first absent index or past the safety
ceiling `1 <<< 20`. Returns `(lastOk, n, probed indices)`. Because `n`
doubles from 1 and the ceiling stops the loop at `n = 2^21`, at most 22
iterations ever run, so the fuel of 25 is never exhausted; the fuel-out
value equals the break value. -/
def probeLoop (env : Nat → NetResult) :
    Nat → Nat → Nat → List Nat → Except (Option JsErr) (Nat × Nat × List Nat)
  | 0, n, lastOk, tr => .ok (lastOk, n, tr.reverse)
  | fuel + 1, n, lastOk, tr =>
      match fetchEnrichedIfExists env n with
      | .error e => .error e
      | .ok res =>
          if res.itExists then
            if n > 1 <<< 20 then .ok (n, n, (n :: tr).reverse)
            else probeLoop env fuel (n * 2) n (n :: tr)
          else .ok (lastOk, n, (n :: tr).reverse)

/-- Phase 2 of `findLatestEnrichedCandidate` (lines 173-184): binary search
in `[lo, hi]` for the highest existing index, keeping the best probe seen.
Each iteration at least halves `hi + 1 - lo`, which starts at most
`2^21 - 1`, so the fuel of 25 is never exhausted; the fuel-out value equals
the loop-exit value. -/
def binLoop (env : Nat → NetResult) :
    Nat → Nat → Nat → ProbeOutcome → List Nat →
    Except (Option JsErr) (ProbeOutcome × List Nat)
  | 0, _, _, best, tr => .ok (best, tr.reverse)
  | fuel + 1, lo, hi, best, tr =>
      if lo ≤ hi then
        let mid := lo + (hi - lo) / 2
        match fetchEnrichedIfExists env mid with
        | .error e => .error e
        | .ok res =>
            if res.itExists then binLoop env fuel (mid + 1) hi res (mid :: tr)
            else binLoop env fuel lo (mid - 1) best (mid :: tr)
      else .ok (best, tr.reverse)

/-- The value `\x7b source: "probe", data, tag \x7d` returned at lines 186-190. -/
structure EnrichedCandidate where
  source : String
  data : Option JVal
  tag : String

/-- Result of `findLatestEnrichedCandidate` with its candidate plus instrumentation:
the indices probed by phase 1, the re-probe of `lastOk` at line 173, and the
indices probed by the binary search. -/
structure LocatorResult where
  cand : EnrichedCandidate
  phase1Probes : List Nat
  reProbe : Nat
  binProbes : List Nat

/-- The revision tag of lines 186-189 for a probe result. -/
def candTag (best : ProbeOutcome) : String :=
  let nodes := arrOrNil (match best.data with | some d => jget d "nodes" | none => none)
  let links := match best.data with | some d => edgesOrLinks d | none => []
  "it" ++ Nat.repr best.n ++ ".json:" ++ Nat.repr nodes.length ++ ":" ++
    Nat.repr links.length

/-- The locator `findLatestEnrichedCandidate()` (`src/unnamed/part_000` lines 152-191). -/
def findLatestEnrichedCandidate (env : Nat → NetResult) :
    Except (Option JsErr) LocatorResult :=
  match probeLoop env 25 1 0 [] with
  | .error e => .error e
  | .ok (lastOk, n, tr1) =>
      if lastOk = 0 then .error (some .noIterations)
      else
        match fetchEnrichedIfExists env lastOk with
        | .error e => .error e
        | .ok best0 =>
            match binLoop env 25 (lastOk + 1) (n - 1) best0 [] with
            | .error e => .error e
            | .ok (best, tr2) =>
                .ok { cand := { source := "probe", data := best.data,
                                tag := candTag best }
                      phase1Probes := tr1, reProbe := lastOk, binProbes := tr2 }

/-! ## ChangeDetector and ViewLifecycleController
(`src/unnamed/part_001` lines 62-104, 128-173, 175-220, 223-284; the
massing/masterplan parts are identical in `src/ui/app.js` lines 61-166). -/

/-- The three views of `src/unnamed/part_001` that own a polling timer. -/
inductive PView where
  | massing
  | enriched
  | masterplan
deriving DecidableEq

/-- The `data-tab` values dispatched by the click handler; `other` is the
final `default: clear + stop all pollers` branch. -/
inductive TabId where
  | context
  | brief
  | massing
  | enriched
  | masterplan
  | other
deriving DecidableEq

/-- Which interval timers are installed: `_massingPoll`, `_enrichedPoll`,
`_mpPoll` being non-null. -/
structure PollSt where
  massingOn : Bool
  enrichedOn : Bool
  mpOn : Bool
deriving DecidableEq

/-- The poller-affecting atomic operations: `stopXPolling()` and the
`setInterval` call inside `startXPolling()`. -/
inductive PAction where
  | stop (v : PView)
  | activate (v : PView)
deriving DecidableEq

def applyAction (s : PollSt) : PAction → PollSt
  | .stop .massing => { s with massingOn := false }
  | .stop .enriched => { s with enrichedOn := false }
  | .stop .masterplan => { s with mpOn := false }
  | .activate .massing => { s with massingOn := true }
  | .activate .enriched => { s with enrichedOn := true }
  | .activate .masterplan => { s with mpOn := true }

def runActions (s : PollSt) (l : List PAction) : PollSt :=
  l.foldl applyAction s

/-- The tab click handler of `src/unnamed/part_001` lines 223-284, split at
its `await` suspension points into atomically executed segments of poller
operations. `massing`: stop the two others, await the load, then
`startMassingPolling` (which first stops its own poller, awaits the mtime
seed, then installs the interval). `enriched`: stop the two others, then
`startEnrichedPolling` (which stops its own poller synchronously, awaits the
initial load, then installs the interval). `masterplan` mirrors `massing`;
`context`/`brief`/default only stop all three. -/
def clickSegs : TabId → List (List PAction)
  | .context => [[.stop .massing, .stop .enriched, .stop .masterplan]]
  | .brief => [[.stop .massing, .stop .enriched, .stop .masterplan]]
  | .massing => [[.stop .enriched, .stop .masterplan], [.stop .massing],
                 [.activate .massing]]
  | .enriched => [[.stop .massing, .stop .masterplan, .stop .enriched],
                  [.activate .enriched]]
  | .masterplan => [[.stop .massing, .stop .enriched], [.stop .masterplan],
                    [.activate .masterplan]]
  | .other => [[.stop .massing, .stop .enriched, .stop .masterplan]]

/-- One tab click run to completion with no other handler interleaved. -/
def clickTab (s : PollSt) (t : TabId) : PollSt :=
  runActions s (clickSegs t).flatten

/-- How many pollers are installed. -/
def pollCount (s : PollSt) : Nat :=
  (cond s.massingOn 1 0) + (cond s.enrichedOn 1 0) + (cond s.mpOn 1 0)

/-- Relation: `zs` is an order-preserving merge of `xs` and `ys`: the schedules the
event loop can produce for two overlapping async handlers, the segments of
each handler staying in order. -/
inductive Interleaving {α : Type} : List α → List α → List α → Prop
  | nil : Interleaving [] [] []
  | left {a : α} {xs ys zs : List α} :
      Interleaving xs ys zs → Interleaving (a :: xs) ys (a :: zs)
  | right {b : α} {xs ys zs : List α} :
      Interleaving xs ys zs → Interleaving xs (b :: ys) (b :: zs)

/-- The mutable state of the detectors: the installed timers plus the stored
revision signals `_massingLastMtime`, `_mpLastMtime`, `_enrichedLastTag`. -/
structure UISt where
  poll : PollSt
  massingLast : JVal
  mpLast : JVal
  enrichedLast : Option String

/-- Module initial state: no timers, `_massingLastMtime = 0`,
`_mpLastMtime = 0`, `_enrichedLastTag = null`. -/
def initUISt : UISt :=
  { poll := { massingOn := false, enrichedOn := false, mpOn := false }
    massingLast := .num 0, mpLast := .num 0, enrichedLast := none }

/-- Teardown `stopMassingPolling()` (`src/ui/app.js` lines 104-109). -/
def stopMassingPolling (st : UISt) : UISt :=
  { st with poll := { st.poll with massingOn := false } }

/-- Startup `startMassingPolling()` (`src/ui/app.js` lines 82-102): stop the previous
timer, try to seed `_massingLastMtime` from the mtime endpoint
(`_massingLastMtime = j0?.mtime || 0`, a thrown fetch/parse being swallowed
by the empty `catch`), then install the interval. `net` is the seed round
trip outcome; the response status is not inspected by this code. -/
def startMassingPolling (net : NetResult) (st : UISt) : UISt :=
  let st1 := stopMassingPolling st
  let st2 := match net with
    | .netErr => st1
    | .resp _ none => st1
    | .resp _ (some j0) =>
        let m := (jget j0 "mtime").getD .null
        { st1 with massingLast := if truthy m then m else .num 0 }
  { st2 with poll := { st2.poll with massingOn := true } }

/-- One firing of the massing interval callback (`src/ui/app.js` lines
90-101): when the timer is cleared the callback does not run at all; a
thrown fetch/parse is swallowed; otherwise
`if (mtime && mtime !== _massingLastMtime)` updates the stored mtime and
performs one full reload. Returns the new state and the number of reloads
triggered (0 or 1). The response status is not inspected by this code. -/
def massingPollTick (net : NetResult) (st : UISt) : UISt × Nat :=
  if st.poll.massingOn then
    match net with
    | .netErr => (st, 0)
    | .resp _ none => (st, 0)
    | .resp _ (some j) =>
        let mtime := (jget j "mtime").getD .null
        if truthy mtime && !(jsStrictEq mtime st.massingLast) then
          ({ st with massingLast := mtime }, 1)
        else (st, 0)
  else (st, 0)

/-- One firing of the enriched interval callback (`src/unnamed/part_001`
lines 161-173): `res` is the outcome of `findLatestEnrichedCandidate()`
projected to its `tag` (a thrown error is swallowed by the `catch`); a tag
different from `_enrichedLastTag` (initially `null`) triggers one render and
stores the tag. -/
def enrichedPollTick (res : Except (Option JsErr) String) (st : UISt) :
    UISt × Nat :=
  if st.poll.enrichedOn then
    match res with
    | .error _ => (st, 0)
    | .ok tag =>
        if st.enrichedLast == some tag then (st, 0)
        else ({ st with enrichedLast := some tag }, 1)
  else (st, 0)

/-! ## Field-list lemmas -/

theorem contains_iff (ks : List String) (k : String) :
    ks.contains k = true ↔ k ∈ ks := List.elem_iff

theorem lookupField_setKey_self (fs : JObj) (k : String) (v : JVal) :
    lookupField (setKey fs k v) k = some v := by
  induction fs with
  | nil => simp [setKey, lookupField]
  | cons p rest ih =>
      obtain ⟨k', v'⟩ := p
      by_cases h : k' = k
      · simp [setKey, h, lookupField]
      · simp [setKey, h, lookupField, ih]

theorem lookupField_setKey_ne (fs : JObj) (k k' : String) (v : JVal)
    (h : k' ≠ k) : lookupField (setKey fs k v) k' = lookupField fs k' := by
  induction fs with
  | nil => simp [setKey, lookupField, Ne.symm h]
  | cons p rest ih =>
      obtain ⟨k₀, v₀⟩ := p
      by_cases h0 : k₀ = k
      · subst h0
        simp [setKey, lookupField, Ne.symm h]
      · simp [setKey, h0, lookupField, ih]

theorem setKey_of_lookup_eq (fs : JObj) (k : String) (v : JVal)
    (h : lookupField fs k = some v) : setKey fs k v = fs := by
  induction fs with
  | nil => simp [lookupField] at h
  | cons p rest ih =>
      obtain ⟨k₀, v₀⟩ := p
      by_cases h0 : k₀ = k
      · subst h0
        simp [lookupField] at h
        simp [setKey, h]
      · simp [lookupField, h0] at h
        simp [setKey, h0, ih h]

theorem lookupField_eq_none_iff (fs : JObj) (k : String) :
    lookupField fs k = none ↔ ∀ p ∈ fs, p.1 ≠ k := by
  induction fs with
  | nil => simp [lookupField]
  | cons p rest ih =>
      obtain ⟨k₀, v₀⟩ := p
      by_cases h0 : k₀ = k
      · simp [lookupField, h0]
      · simp [lookupField, h0, ih]

theorem lookupField_removeKeys_mem (fs : JObj) (ks : List String) (k : String)
    (h : k ∈ ks) : lookupField (removeKeys fs ks) k = none := by
  rw [lookupField_eq_none_iff]
  intro p hp hk
  have hfilt := List.mem_filter.mp hp
  have hcont : ks.contains p.1 = true := (contains_iff ks p.1).mpr (hk ▸ h)
  rw [hcont] at hfilt
  exact absurd hfilt.2 (by simp)

theorem removeKeys_eq_self (fs : JObj) (ks : List String)
    (h : ∀ p ∈ fs, p.1 ∉ ks) : removeKeys fs ks = fs := by
  unfold removeKeys
  rw [List.filter_eq_self]
  intro p hp
  have : ks.contains p.1 = false := by
    by_contra hc
    simp only [Bool.not_eq_false] at hc
    exact h p hp ((contains_iff ks p.1).mp hc)
  simp only [this, Bool.not_false]

theorem removeKeys_removeKeys (fs : JObj) (ks : List String) :
    removeKeys (removeKeys fs ks) ks = removeKeys fs ks := by
  apply removeKeys_eq_self
  intro p hp hmem
  have hfilt := List.mem_filter.mp hp
  have hcont : ks.contains p.1 = true := (contains_iff ks p.1).mpr hmem
  rw [hcont] at hfilt
  exact absurd hfilt.2 (by simp)

/-! ## Adapter lemmas -/

theorem jgetNN_ne_null (v : JVal) (k : String) (w : JVal)
    (h : jgetNN v k = some w) : w ≠ .null := by
  intro hw
  subst hw
  unfold jgetNN at h
  rcases hg : jget v k with _ | x <;> rw [hg] at h
  · exact absurd h (by simp)
  · cases x <;> simp at h

theorem jgetNN_obj (v : JVal) (k : String)
    (h : (jgetNN v k).isSome = true) : ∃ fs, v = .obj fs := by
  cases v <;> simp [jgetNN, jget] at h
  exact ⟨_, rfl⟩

theorem edgeSource_ne_null (e : JVal) (s : JVal)
    (h : edgeSource e = some s) : s ≠ .null := by
  unfold edgeSource at h
  rcases h0 : jgetNN e "source" with _ | s0
  · rw [h0] at h
    simp only at h
    by_cases hh : ((jgetNN e "u").isSome && (jgetNN e "v").isSome) = true
    · rw [if_pos hh] at h
      exact jgetNN_ne_null e "u" s h
    · rw [if_neg hh] at h
      exact absurd h (by simp)
  · rw [h0] at h
    simp only [Option.some.injEq] at h
    exact h ▸ jgetNN_ne_null e "source" s0 h0

theorem edgeTarget_ne_null (e : JVal) (t : JVal)
    (h : edgeTarget e = some t) : t ≠ .null := by
  unfold edgeTarget at h
  rcases h0 : jgetNN e "target" with _ | t0
  · rw [h0] at h
    simp only at h
    by_cases hh : ((jgetNN e "u").isSome && (jgetNN e "v").isSome) = true
    · rw [if_pos hh] at h
      exact jgetNN_ne_null e "v" t h
    · rw [if_neg hh] at h
      exact absurd h (by simp)
  · rw [h0] at h
    simp only [Option.some.injEq] at h
    exact h ▸ jgetNN_ne_null e "target" t0 h0

/-- Structure of a successfully adapted edge. -/
theorem adaptEdge_some_shape (e : JVal) (out : JObj)
    (h : adaptEdge e = some out) :
    ∃ s t, edgeSource e = some s ∧ edgeTarget e = some t ∧
      out = setKey (setKey (removeKeys (fieldsOf e) ["u", "v"]) "source" s)
              "target" t ∧
      lookupField out "source" = some s ∧ lookupField out "target" = some t := by
  unfold adaptEdge at h
  by_cases ht : truthy e = false
  · rw [if_pos ht] at h; exact absurd h (by simp)
  · rw [if_neg ht] at h
    rcases hs : edgeSource e with _ | s <;> rw [hs] at h
    · rcases htg : edgeTarget e with _ | t <;> rw [htg] at h <;>
        exact absurd h (by simp)
    · rcases htg : edgeTarget e with _ | t <;> rw [htg] at h
      · exact absurd h (by simp)
      · simp only [Option.some.injEq] at h
        refine ⟨s, t, rfl, rfl, h.symm, ?_, ?_⟩
        · rw [← h, lookupField_setKey_ne _ _ _ _ (by decide),
              lookupField_setKey_self]
        · rw [← h, lookupField_setKey_self]

/-- A canonical output edge re-enters the adapter unchanged. -/
theorem adaptEdge_roundtrip (e : JVal) (out : JObj)
    (h : adaptEdge e = some out) : adaptEdge (.obj out) = some out := by
  obtain ⟨s, t, hse, hte, hout, hls, hlt⟩ := adaptEdge_some_shape e out h
  have hsnn := edgeSource_ne_null e s hse
  have htnn := edgeTarget_ne_null e t hte
  have hu : lookupField out "u" = none := by
    rw [hout, lookupField_setKey_ne _ _ _ _ (by decide),
        lookupField_setKey_ne _ _ _ _ (by decide)]
    exact lookupField_removeKeys_mem _ _ _ (by decide)
  have hv : lookupField out "v" = none := by
    rw [hout, lookupField_setKey_ne _ _ _ _ (by decide),
        lookupField_setKey_ne _ _ _ _ (by decide)]
    exact lookupField_removeKeys_mem _ _ _ (by decide)
  have hgs : jgetNN (.obj out) "source" = some s := by
    unfold jgetNN
    simp only [jget, hls]
  have hgt : jgetNN (.obj out) "target" = some t := by
    unfold jgetNN
    simp only [jget, hlt]

  have hrm : removeKeys out ["u", "v"] = out := by
    apply removeKeys_eq_self
    intro p hp hmem
    simp only [List.mem_cons, List.not_mem_nil, or_false] at hmem
    rcases hmem with h1 | h1
    · exact ((lookupField_eq_none_iff out "u").mp hu p hp) h1
    · exact ((lookupField_eq_none_iff out "v").mp hv p hp) h1
  have hes : edgeSource (.obj out) = some s := by
    unfold edgeSource
    rw [hgs]
  have het : edgeTarget (.obj out) = some t := by
    unfold edgeTarget
    rw [hgt]
  unfold adaptEdge
  rw [if_neg (by simp [truthy]), hes, het]
  simp only [fieldsOf, hrm, Option.some.injEq]
  rw [setKey_of_lookup_eq _ _ _ hls, setKey_of_lookup_eq _ _ _ hlt]

/-- A canonical output node re-enters the adapter unchanged. -/
theorem adaptNode_roundtrip (n : JVal) :
    adaptNode (.obj (adaptNode n)) = adaptNode n := by
  unfold adaptNode
  simp only [truthy, if_true, fieldsOf]
  exact removeKeys_removeKeys _ _

theorem truthy_metaOf (raw : JVal) : truthy (metaOf raw) = true := by
  unfold metaOf
  rcases h : jget raw "meta" with _ | m
  · rfl
  · show truthy (if truthy m = true then m else JVal.obj []) = true
    by_cases hm : truthy m = true
    · rw [if_pos hm]; exact hm
    · rw [if_neg hm]; rfl

theorem filterMap_adaptEdge_roundtrip (l : List JVal) :
    ((l.filterMap adaptEdge).map JVal.obj).filterMap adaptEdge =
      l.filterMap adaptEdge := by
  induction l with
  | nil => rfl
  | cons a t ih =>
      rcases h : adaptEdge a with _ | out
      · simpa [List.filterMap_cons, h] using ih
      · simp [List.filterMap_cons, h, adaptEdge_roundtrip a out h, ih]

/-- C2 (confirmed). `adaptGraph` is idempotent: its canonical output (with
the dual `edges`/`links` keys materialized by `Graph.toRaw`) fed back in as a
raw payload reproduces exactly the same canonical graph — normalization is a
fixed point. -/
theorem adaptGraph_idempotent (raw : JVal) :
    adaptGraph (Graph.toRaw (adaptGraph raw)) = adaptGraph raw := by
  have hnodes : arrOrNil (jget (Graph.toRaw (adaptGraph raw)) "nodes") =
      (adaptGraph raw).nodes.map .obj := rfl
  have hedges : edgesOrLinks (Graph.toRaw (adaptGraph raw)) =
      (adaptGraph raw).edges.map .obj := rfl
  have hmeta : metaOf (Graph.toRaw (adaptGraph raw)) = (adaptGraph raw).meta := by
    show (if truthy (adaptGraph raw).meta then (adaptGraph raw).meta else .obj [])
        = (adaptGraph raw).meta
    have hm : (adaptGraph raw).meta = metaOf raw := rfl
    rw [hm, truthy_metaOf, if_pos rfl]
  show Graph.mk _ _ _ = Graph.mk _ _ _
  rw [hnodes, hedges, hmeta]
  congr 1
  · show ((arrOrNil (jget raw "nodes")).map adaptNode |>.map .obj).map adaptNode
        = (arrOrNil (jget raw "nodes")).map adaptNode
    rw [List.map_map, List.map_map]
    exact List.map_congr_left fun n _ => adaptNode_roundtrip n
  · exact filterMap_adaptEdge_roundtrip _

/-! ## C1: edge endpoint resolution -/

/-- The C1 claim as stated: endpoints are kept when `source` and `target` are
both non-null, `otherwise` (not both non-null) `u`/`v` — when both non-null —
are mapped to `source`/`target`, and `u`/`v` never appear in an output edge. -/
def claimC1 : Prop :=
  ∀ (e : JVal) (out : JObj), adaptEdge e = some out →
    ((jgetNN e "source").isSome = true ∧ (jgetNN e "target").isSome = true →
       lookupField out "source" = jgetNN e "source" ∧
       lookupField out "target" = jgetNN e "target") ∧
    (¬((jgetNN e "source").isSome = true ∧ (jgetNN e "target").isSome = true) →
       (jgetNN e "u").isSome = true → (jgetNN e "v").isSome = true →
       lookupField out "source" = jgetNN e "u" ∧
       lookupField out "target" = jgetNN e "v") ∧
    lookupField out "u" = none ∧ lookupField out "v" = none

/-- C1 (counterexample). The edge `\x7b source: "S", u: "A", v: "B" \x7d` has
`source`/`target` not both non-null while `u` and `v` are both non-null, so
the claim as stated maps `u` to `source`; the code instead keeps the explicit
`source: "S"` (per-endpoint resolution) and only fills `target` from `v`. -/
theorem adaptEdge_uv_claim_false : ¬ claimC1 := by
  intro h
  have h2 := (h (.obj [("source", .str "S"), ("u", .str "A"), ("v", .str "B")])
      [("source", .str "S"), ("target", .str "B")] rfl).2.1
  have h3 := (h2 (fun hc => by
        have hc2 := hc.2
        rw [show jgetNN (.obj [("source", .str "S"), ("u", .str "A"),
              ("v", .str "B")]) "target" = none from rfl] at hc2
        exact absurd hc2 (by decide)) rfl rfl).1
  have h4 : (some (JVal.str "S") : Option JVal) = some (.str "A") := h3
  exact absurd (JVal.str.inj (Option.some.inj h4)) (by decide)

/-- Example raw graph of the C1 claim:
`\x7b edges: [\x7b u: "A", v: "B", type: "adjacent" \x7d] \x7d`. -/
def exampleEdgeRaw : JVal :=
  .obj [("edges", .arr [.obj [("u", .str "A"), ("v", .str "B"),
        ("type", .str "adjacent")]])]

/-- C1 (amended). Endpoint resolution is per endpoint, not per pair:
`(adaptGraph raw).edges` maps `adaptEdge` over the extracted input edges;
an emitted edge never carries `u`/`v`; a non-null input `source` (resp.
`target`) is always kept; a null/missing `source` (resp. `target`) is filled
from `u` (resp. `v`) when an emitted edge results; an edge whose `source` or
`target` does not resolve is dropped (`none`), not an error; and the claim
example maps `\x7b u: "A", v: "B", type: "adjacent" \x7d` to the edge with
`source: "A"`, `target: "B"`, `type: "adjacent"` and no `u`/`v` keys (in JS
enumeration order the keys are `type`, `source`, `target`). -/
theorem adaptEdge_endpoint_resolution :
    (∀ raw : JVal,
       (adaptGraph raw).edges = (edgesOrLinks raw).filterMap adaptEdge) ∧
    (∀ (e : JVal) (out : JObj), adaptEdge e = some out →
       lookupField out "u" = none ∧ lookupField out "v" = none) ∧
    (∀ (e : JVal) (out : JObj) (s : JVal), adaptEdge e = some out →
       jgetNN e "source" = some s → lookupField out "source" = some s) ∧
    (∀ (e : JVal) (out : JObj) (t : JVal), adaptEdge e = some out →
       jgetNN e "target" = some t → lookupField out "target" = some t) ∧
    (∀ (e : JVal) (out : JObj) (a : JVal), adaptEdge e = some out →
       jgetNN e "source" = none → jgetNN e "u" = some a →
       lookupField out "source" = some a) ∧
    (∀ (e : JVal) (out : JObj) (b : JVal), adaptEdge e = some out →
       jgetNN e "target" = none → jgetNN e "v" = some b →
       lookupField out "target" = some b) ∧
    (∀ e : JVal, edgeSource e = none ∨ edgeTarget e = none →
       adaptEdge e = none) ∧
    adaptGraph exampleEdgeRaw =
      { nodes := [],
        edges := [[("type", .str "adjacent"), ("source", .str "A"),
                   ("target", .str "B")]],
        meta := .obj [] } := by
  refine ⟨fun _ => rfl, ?_, ?_, ?_, ?_, ?_, ?_, rfl⟩
  · intro e out h
    obtain ⟨s, t, _, _, hout, _, _⟩ := adaptEdge_some_shape e out h
    rw [hout]
    constructor
    · rw [lookupField_setKey_ne _ _ _ _ (by decide),
          lookupField_setKey_ne _ _ _ _ (by decide)]
      exact lookupField_removeKeys_mem _ _ _ (by decide)
    · rw [lookupField_setKey_ne _ _ _ _ (by decide),
          lookupField_setKey_ne _ _ _ _ (by decide)]
      exact lookupField_removeKeys_mem _ _ _ (by decide)
  · intro e out s h hsrc
    obtain ⟨s', t', hse, _, _, hls, _⟩ := adaptEdge_some_shape e out h
    have : edgeSource e = some s := by unfold edgeSource; rw [hsrc]
    rw [this] at hse
    exact (Option.some.inj hse) ▸ hls
  · intro e out t h htgt
    obtain ⟨s', t', _, hte, _, _, hlt⟩ := adaptEdge_some_shape e out h
    have : edgeTarget e = some t := by unfold edgeTarget; rw [htgt]
    rw [this] at hte
    exact (Option.some.inj hte) ▸ hlt
  · intro e out a h hsrc hu
    obtain ⟨s', t', hse, _, _, hls, _⟩ := adaptEdge_some_shape e out h
    have hse2 : edgeSource e =
        (if ((jgetNN e "u").isSome && (jgetNN e "v").isSome) = true
         then jgetNN e "u" else none) := by
      unfold edgeSource; rw [hsrc]
    rw [hse2] at hse
    by_cases hc : ((jgetNN e "u").isSome && (jgetNN e "v").isSome) = true
    · rw [if_pos hc, hu] at hse
      exact (Option.some.inj hse) ▸ hls
    · rw [if_neg hc] at hse
      exact absurd hse (by simp)
  · intro e out b h htgt hv
    obtain ⟨s', t', _, hte, _, _, hlt⟩ := adaptEdge_some_shape e out h
    have hte2 : edgeTarget e =
        (if ((jgetNN e "u").isSome && (jgetNN e "v").isSome) = true
         then jgetNN e "v" else none) := by
      unfold edgeTarget; rw [htgt]
    rw [hte2] at hte
    by_cases hc : ((jgetNN e "u").isSome && (jgetNN e "v").isSome) = true
    · rw [if_pos hc, hv] at hte
      exact (Option.some.inj hte) ▸ hlt
    · rw [if_neg hc] at hte
      exact absurd hte (by simp)
  · intro e h
    unfold adaptEdge
    by_cases ht : truthy e = false
    · rw [if_pos ht]
    · rw [if_neg ht]
      rcases h with h | h
      · rw [h]
      · rw [h]
        rcases edgeSource e with _ | s <;> rfl

/-- Witness for the amended C1 theorem at the concrete edge
`\x7b source: "S", target: "T", u: "A", v: "B", w: 1 \x7d` (both endpoints
explicitly present are kept, `u`/`v` removed) and at the claim example. -/
theorem adaptEdge_endpoint_resolution_witness :
    lookupField [("source", .str "S"), ("target", .str "T"), ("w", .num 1)]
        "source" = some (.str "S") ∧
    lookupField [("source", .str "S"), ("target", .str "T"), ("w", .num 1)]
        "target" = some (.str "T") ∧
    lookupField [("source", .str "S"), ("target", .str "T"), ("w", .num 1)]
        "u" = none ∧
    adaptGraph exampleEdgeRaw =
      { nodes := [],
        edges := [[("type", .str "adjacent"), ("source", .str "A"),
                   ("target", .str "B")]],
        meta := .obj [] } := by
  have h := adaptEdge_endpoint_resolution
  refine ⟨?_, ?_, ?_, h.2.2.2.2.2.2.2⟩
  · exact h.2.2.1 (.obj [("source", .str "S"), ("target", .str "T"),
      ("u", .str "A"), ("v", .str "B"), ("w", .num 1)]) _ (.str "S") rfl rfl
  · exact h.2.2.2.1 (.obj [("source", .str "S"), ("target", .str "T"),
      ("u", .str "A"), ("v", .str "B"), ("w", .num 1)]) _ (.str "T") rfl rfl
  · exact (h.2.1 (.obj [("source", .str "S"), ("target", .str "T"),
      ("u", .str "A"), ("v", .str "B"), ("w", .num 1)]) _ rfl).1

/-! ## C10: mixed-scheme endpoint resolution -/

/-- C10 (confirmed). An edge may resolve its endpoints from a mix of the two
naming schemes: with `source` non-null, `target` null/missing, and `u`, `v`
both non-null, the emitted edge keeps `source` and takes `target` from `v`;
symmetrically a missing `source` with `target` present is filled from `u`.
Such mixed edges are emitted, not dropped. -/
theorem adaptEdge_mixed_resolution :
    (∀ (e : JVal) (s a b : JVal),
       jgetNN e "source" = some s → jgetNN e "target" = none →
       jgetNN e "u" = some a → jgetNN e "v" = some b →
       ∃ out, adaptEdge e = some out ∧
         lookupField out "source" = some s ∧
         lookupField out "target" = some b) ∧
    (∀ (e : JVal) (t a b : JVal),
       jgetNN e "source" = none → jgetNN e "target" = some t →
       jgetNN e "u" = some a → jgetNN e "v" = some b →
       ∃ out, adaptEdge e = some out ∧
         lookupField out "source" = some a ∧
         lookupField out "target" = some t) := by
  constructor
  · intro e s a b hs ht hu hv
    obtain ⟨fs, rfl⟩ := jgetNN_obj e "source" (by simp [hs])
    have hes : edgeSource (.obj fs) = some s := by
      unfold edgeSource; rw [hs]
    have het : edgeTarget (.obj fs) = some b := by
      unfold edgeTarget
      rw [ht, hu, hv]
      simp
    refine ⟨setKey (setKey (removeKeys fs ["u", "v"]) "source" s) "target" b,
      ?_, ?_, ?_⟩
    · unfold adaptEdge
      rw [if_neg (by simp [truthy]), hes, het]
      rfl
    · rw [lookupField_setKey_ne _ _ _ _ (by decide), lookupField_setKey_self]
    · rw [lookupField_setKey_self]
  · intro e t a b hs ht hu hv
    obtain ⟨fs, rfl⟩ := jgetNN_obj e "target" (by simp [ht])
    have hes : edgeSource (.obj fs) = some a := by
      unfold edgeSource
      rw [hs, hu, hv]
      simp
    have het : edgeTarget (.obj fs) = some t := by
      unfold edgeTarget; rw [ht]
    refine ⟨setKey (setKey (removeKeys fs ["u", "v"]) "source" a) "target" t,
      ?_, ?_, ?_⟩
    · unfold adaptEdge
      rw [if_neg (by simp [truthy]), hes, het]
      rfl
    · rw [lookupField_setKey_ne _ _ _ _ (by decide), lookupField_setKey_self]
    · rw [lookupField_setKey_self]

/-- Witness for C10 at `\x7b source: "S", u: "A", v: "B" \x7d` and at
`\x7b target: "T", u: "A", v: "B" \x7d`. -/
theorem adaptEdge_mixed_resolution_witness :
    (∃ out, adaptEdge (.obj [("source", .str "S"), ("u", .str "A"),
        ("v", .str "B")]) = some out ∧
      lookupField out "source" = some (.str "S") ∧
      lookupField out "target" = some (.str "B")) ∧
    (∃ out, adaptEdge (.obj [("target", .str "T"), ("u", .str "A"),
        ("v", .str "B")]) = some out ∧
      lookupField out "source" = some (.str "A") ∧
      lookupField out "target" = some (.str "T")) :=
  ⟨adaptEdge_mixed_resolution.1 _ (.str "S") (.str "A") (.str "B")
     rfl rfl rfl rfl,
   adaptEdge_mixed_resolution.2 _ (.str "T") (.str "A") (.str "B")
     rfl rfl rfl rfl⟩

/-! ## Retry-loop lemmas (C5, C6) -/

/-- The canonical event trace of a run whose attempts `s, s+1, ...` all fail,
under a total budget of `a` attempts: each attempt event, followed by a
backoff delay of `base * (1 + i)` after failed attempt `i` except after the
final attempt. -/
def failTraceFrom (a base s len : Nat) : List REvent :=
  (List.range' s len).flatMap fun j =>
    .attempt j :: if j + 1 < a then [.delay (base * (1 + j))] else []

theorem countAttempts_cons_attempt (i : Nat) (tr : List REvent) :
    countAttempts (.attempt i :: tr) = countAttempts tr + 1 := by
  simp [countAttempts, List.filter]

theorem countAttempts_cons_delay (d : Nat) (tr : List REvent) :
    countAttempts (.delay d :: tr) = countAttempts tr := by
  simp [countAttempts, List.filter]

theorem countAttempts_retryLoop_le (env : Nat → NetResult) (a base : Nat)
    (ae : Bool) :
    ∀ rem i le, countAttempts (retryLoop env a base ae rem i le).2 ≤ rem := by
  intro rem
  induction rem with
  | zero => intro i le; simp [retryLoop, countAttempts]
  | succ r ih =>
      intro i le
      unfold retryLoop
      rcases h : attemptOnce env i ae with e | j
      all_goals dsimp only
      · by_cases hlt : i < a - 1
        · rw [if_pos hlt]
          simp only [countAttempts_cons_attempt, countAttempts_cons_delay]
          exact Nat.succ_le_succ (ih (i + 1) (some e))
        · rw [if_neg hlt]
          simp only [countAttempts_cons_attempt]
          exact Nat.succ_le_succ (ih (i + 1) (some e))
      · simp [countAttempts, List.filter]

theorem retryLoop_succ_err (env : Nat → NetResult) (a base : Nat) (ae : Bool)
    (rem i : Nat) (le : Option JsErr) (e : JsErr)
    (h : attemptOnce env i ae = .error e) :
    retryLoop env a base ae (rem + 1) i le =
      if i < a - 1 then
        ((retryLoop env a base ae rem (i + 1) (some e)).1,
         .attempt i :: .delay (base * (1 + i)) ::
           (retryLoop env a base ae rem (i + 1) (some e)).2)
      else ((retryLoop env a base ae rem (i + 1) (some e)).1,
            .attempt i :: (retryLoop env a base ae rem (i + 1) (some e)).2) := by
  show (match attemptOnce env i ae with
    | Except.ok j => (Except.ok j, [REvent.attempt i])
    | Except.error e =>
        let next := retryLoop env a base ae rem (i + 1) (some e)
        if i < a - 1 then
          (next.1, REvent.attempt i :: REvent.delay (base * (1 + i)) :: next.2)
        else (next.1, REvent.attempt i :: next.2)) = _
  rw [h]

theorem retryLoop_succ_ok (env : Nat → NetResult) (a base : Nat) (ae : Bool)
    (rem i : Nat) (le : Option JsErr) (j : JVal)
    (h : attemptOnce env i ae = .ok j) :
    retryLoop env a base ae (rem + 1) i le = (.ok j, [.attempt i]) := by
  show (match attemptOnce env i ae with
    | Except.ok j => (Except.ok j, [REvent.attempt i])
    | Except.error e =>
        let next := retryLoop env a base ae rem (i + 1) (some e)
        if i < a - 1 then
          (next.1, REvent.attempt i :: REvent.delay (base * (1 + i)) :: next.2)
        else (next.1, REvent.attempt i :: next.2)) = _
  rw [h]

theorem retryLoop_allFail (env : Nat → NetResult) (errF : Nat → JsErr)
    (a base : Nat)
    (hfail : ∀ i, i < a → attemptOnce env i false = .error (errF i)) :
    ∀ rem i, rem + i = a → 1 ≤ rem → ∀ le,
      retryLoop env a base false rem i le =
        (.error (some (errF (a - 1))), failTraceFrom a base i rem) := by
  intro rem
  induction rem with
  | zero => intro i h h1; omega
  | succ r ih =>
      intro i hsum _ le
      have hia : i < a := by omega
      rw [retryLoop_succ_err env a base false r i le (errF i) (hfail i hia)]
      cases r with
      | zero =>
          rw [if_neg (show ¬ i < a - 1 by omega)]
          have h0 : retryLoop env a base false 0 (i + 1) (some (errF i)) =
              (.error (some (errF i)), []) := rfl
          rw [h0]
          show (_, _) = (_, failTraceFrom a base i 1)
          simp only [failTraceFrom, List.range'_one, List.flatMap_cons,
            List.flatMap_nil, List.append_nil]
          rw [if_neg (show ¬ i + 1 < a by omega),
              show i = a - 1 by omega]
      | succ r' =>
          rw [if_pos (show i < a - 1 by omega)]
          rw [ih (i + 1) (by omega) (by omega) (some (errF i))]
          show (_, _) = (_, failTraceFrom a base i (r' + 1 + 1))
          simp only [failTraceFrom, List.range'_succ, List.flatMap_cons]
          rw [if_pos (show i + 1 < a by omega)]
          rfl

theorem countAttempts_failTraceFrom (a base : Nat) :
    ∀ len s, countAttempts (failTraceFrom a base s len) = len := by
  intro len
  induction len with
  | zero => intro s; simp [failTraceFrom, countAttempts]
  | succ r ih =>
      intro s
      simp only [failTraceFrom, List.range'_succ, List.flatMap_cons]
      by_cases h : s + 1 < a
      · rw [if_pos h]
        simp only [List.cons_append, List.singleton_append, List.nil_append,
          countAttempts_cons_attempt, countAttempts_cons_delay]
        have := ih (s + 1)
        simp only [failTraceFrom] at this
        rw [this]
      · rw [if_neg h]
        simp only [List.nil_append, List.cons_append,
          countAttempts_cons_attempt]
        have := ih (s + 1)
        simp only [failTraceFrom] at this
        rw [this]

theorem failTraceFrom_cons (a base s r : Nat) (h : 1 ≤ r) (hsa : s + 1 < a) :
    failTraceFrom a base s (r + 1) =
      .attempt s :: .delay (base * (1 + s)) ::
        (.attempt (s + 1) :: (failTraceFrom a base (s + 1) r).tail) ∧
    failTraceFrom a base (s + 1) r =
      .attempt (s + 1) :: (failTraceFrom a base (s + 1) r).tail := by
  obtain ⟨r', rfl⟩ : ∃ r', r = r' + 1 := ⟨r - 1, by omega⟩
  have h2 : failTraceFrom a base (s + 1) (r' + 1) =
      .attempt (s + 1) :: (failTraceFrom a base (s + 1) (r' + 1)).tail := by
    simp only [failTraceFrom, List.range'_succ, List.flatMap_cons,
      List.cons_append, List.tail_cons]
  constructor
  · simp only [failTraceFrom, List.range'_succ, List.flatMap_cons]
    rw [if_pos hsa]
    simp only [List.cons_append, List.singleton_append, List.nil_append,
      List.tail_cons]
  · exact h2

theorem delayBeforeAttempt_failTraceFrom (a base : Nat) :
    ∀ len s, s + len = a → 1 ≤ len → ∀ i,
      delayBeforeAttempt (failTraceFrom a base s len) i =
        if s < i ∧ i < a then some (base * i) else none := by
  intro len
  induction len with
  | zero => intro s h h1; omega
  | succ r ih =>
      intro s hsum _ i
      cases r with
      | zero =>
          have hs : s = a - 1 := by omega
          have htr : failTraceFrom a base s 1 = [.attempt s] := by
            simp only [failTraceFrom, List.range'_one, List.flatMap_cons,
              List.flatMap_nil, List.append_nil]
            rw [if_neg (by omega)]
          rw [htr]
          rw [if_neg (by omega)]
          rfl
      | succ r' =>
          have hsa : s + 1 < a := by omega
          obtain ⟨hc, hhead⟩ :=
            failTraceFrom_cons a base s (r' + 1) (by omega) hsa
          rw [hc]
          show delayBeforeAttempt (.delay (base * (1 + s)) ::
            .attempt (s + 1) :: (failTraceFrom a base (s + 1) (r' + 1)).tail) i
              = _
          unfold delayBeforeAttempt
          by_cases hi : s + 1 = i
          · rw [if_pos hi]
            rw [if_pos (by omega)]
            subst hi
            congr 1
            ring
          · rw [if_neg hi]
            have := ih (s + 1) (by omega) (by omega) i
            rw [hhead] at this
            rw [this]
            by_cases h1 : s < i ∧ i < a
            · by_cases h2 : s + 1 < i
              · rw [if_pos ⟨h2, h1.2⟩, if_pos h1]
              · omega
            · rw [if_neg (by omega), if_neg h1]

theorem getLast_failTraceFrom (a base : Nat) :
    ∀ len s, s + len = a → 1 ≤ len →
      (failTraceFrom a base s len).getLast? = some (.attempt (a - 1)) := by
  intro len
  induction len with
  | zero => intro s h h1; omega
  | succ r ih =>
      intro s hsum _
      cases r with
      | zero =>
          have hs : s = a - 1 := by omega
          have htr : failTraceFrom a base s 1 = [.attempt s] := by
            simp only [failTraceFrom, List.range'_one, List.flatMap_cons,
              List.flatMap_nil, List.append_nil]
            rw [if_neg (by omega)]
          rw [htr, hs]
          rfl
      | succ r' =>
          have hsa : s + 1 < a := by omega
          obtain ⟨hc, hhead⟩ :=
            failTraceFrom_cons a base s (r' + 1) (by omega) hsa
          rw [hc, List.getLast?_cons_cons, List.getLast?_cons_cons]
          rw [← hhead]
          exact ih (s + 1) (by omega) (by omega)

/-! ## C5: retry backoff schedule -/

/-- An environment where every fetch rejects (network down). -/
def envAllFail : Nat → NetResult := fun _ => .netErr

/-- C5 (counterexample). With 2 attempts and `baseDelay = 800`, both
failing, the delay inserted before attempt 1 is `800` — the code sleeps
`baseDelay * (1 + i)` after failed attempt `i`, so the delay before attempt
`i` is `baseDelay * i`, not `baseDelay * (1 + i) = 1600` as the claim
states. -/
theorem fetch_retry_delay_claim_false :
    delayBeforeAttempt (fetchJsonWithRetry envAllFail 2 800).2 1 = some 800 ∧
    some 800 ≠ some (800 * (1 + 1)) ∧
    (fetchJsonWithRetry envAllFail 2 800).2 =
      [.attempt 0, .delay 800, .attempt 1] :=
  ⟨rfl, by decide, rfl⟩

/-- C5 (amended). In `fetchJsonWithRetry`, the backoff sleep inserted after
failed attempt `i` — hence before attempt `i + 1` — is `baseDelay * (1 + i)`;
equivalently the delay before attempt `i` (for `1 ≤ i < attempts`) is
`baseDelay * i`. No delay precedes attempt 0 and none follows the final
attempt (the trace ends with the last attempt event). At most `attempts`
attempts are made for any environment, and on exhaustion the thrown error is
the one observed on the last attempt. -/
theorem fetch_retry_backoff (a base : Nat) (env : Nat → NetResult)
    (errF : Nat → JsErr) (ha : 1 ≤ a)
    (hfail : ∀ i, i < a → attemptOnce env i false = .error (errF i)) :
    fetchJsonWithRetry env a base =
      (.error (some (errF (a - 1))), failTraceFrom a base 0 a) ∧
    (∀ i, 1 ≤ i → i < a →
       delayBeforeAttempt (fetchJsonWithRetry env a base).2 i =
         some (base * i)) ∧
    delayBeforeAttempt (fetchJsonWithRetry env a base).2 0 = none ∧
    (fetchJsonWithRetry env a base).2.getLast? = some (.attempt (a - 1)) ∧
    countAttempts (fetchJsonWithRetry env a base).2 = a ∧
    (∀ (env2 : Nat → NetResult) (base2 : Nat) (ae : Bool),
       countAttempts (fetchJsonWithRetry env2 a base2 ae).2 ≤ a) := by
  have hrun : fetchJsonWithRetry env a base =
      (.error (some (errF (a - 1))), failTraceFrom a base 0 a) :=
    retryLoop_allFail env errF a base hfail a 0 (by omega) ha none
  refine ⟨hrun, ?_, ?_, ?_, ?_, ?_⟩
  · intro i h1 h2
    rw [hrun]
    have hd := delayBeforeAttempt_failTraceFrom a base a 0 (by omega) ha i
    rw [hd, if_pos ⟨by omega, h2⟩]
  · rw [hrun]
    have hd := delayBeforeAttempt_failTraceFrom a base a 0 (by omega) ha 0
    rw [hd, if_neg (by omega)]
  · rw [hrun]
    exact getLast_failTraceFrom a base a 0 (by omega) ha
  · rw [hrun]
    exact countAttempts_failTraceFrom a base a 0
  · intro env2 base2 ae
    exact countAttempts_retryLoop_le env2 a base2 ae a 0 none

/-- Witness for the amended C5 theorem: 3 attempts with base delay 700
against a server that always answers HTTP 500 — trace
`attempt 0, delay 700, attempt 1, delay 1400, attempt 2`, throwing the last
HTTP 500. -/
theorem fetch_retry_backoff_witness :
    fetchJsonWithRetry (fun _ => .resp 500 none) 3 700 =
      (.error (some (.http 500)), failTraceFrom 3 700 0 3) ∧
    failTraceFrom 3 700 0 3 =
      [.attempt 0, .delay 700, .attempt 1, .delay 1400, .attempt 2] ∧
    delayBeforeAttempt (fetchJsonWithRetry (fun _ => .resp 500 none)
      3 700).2 2 = some 1400 :=
  ⟨(fetch_retry_backoff 3 700 (fun _ => .resp 500 none) (fun _ => .http 500)
      (by omega) (fun i _ => rfl)).1,
   rfl,
   (fetch_retry_backoff 3 700 (fun _ => .resp 500 none) (fun _ => .http 500)
      (by omega) (fun i _ => rfl)).2.1 2 (by omega) (by omega)⟩

/-! ## C6: empty-graph policy -/

/-- C6 (confirmed). With `allowEmpty = false`, a 2xx response whose node
list and edge/link list are both empty counts as a failed attempt, so a
backend that always returns such payloads exhausts exactly `attempts`
attempts and throws the empty-graph error; with `allowEmpty = true` the
first empty 2xx payload is returned immediately after a single attempt. -/
theorem fetch_retry_empty_policy (a base : Nat) (env : Nat → NetResult)
    (js : Nat → JVal) (ha : 1 ≤ a)
    (hresp : ∀ i, i < a → env i = .resp 200 (some (js i)))
    (hempty : ∀ i, i < a → graphIsEmpty (js i) = true) :
    (fetchJsonWithRetry env a base false).1 = .error (some .emptyGraph) ∧
    countAttempts (fetchJsonWithRetry env a base false).2 = a ∧
    fetchJsonWithRetry env a base true = (.ok (js 0), [.attempt 0]) := by
  have hfail : ∀ i, i < a → attemptOnce env i false = .error .emptyGraph := by
    intro i hi
    unfold attemptOnce
    rw [hresp i hi]
    dsimp only
    rw [if_pos (by omega : (200:Nat) ≤ 200 ∧ (200:Nat) ≤ 299), hempty i hi]
    rfl
  have hrun := retryLoop_allFail env (fun _ => .emptyGraph) a base hfail a 0
    (by omega) ha none
  refine ⟨?_, ?_, ?_⟩
  · show (retryLoop env a base false a 0 none).1 = _
    rw [hrun]
  · show countAttempts (retryLoop env a base false a 0 none).2 = a
    rw [hrun]
    exact countAttempts_failTraceFrom a base a 0
  · obtain ⟨r, rfl⟩ : ∃ r, a = r + 1 := ⟨a - 1, by omega⟩
    show retryLoop env (r + 1) base true (r + 1) 0 none = _
    rw [retryLoop_succ_ok env (r + 1) base true r 0 none (js 0) (by
      unfold attemptOnce
      rw [hresp 0 (by omega)]
      dsimp only
      rw [if_pos (by omega : (200:Nat) ≤ 200 ∧ (200:Nat) ≤ 299)]
      rfl)]

/-- Witness for C6: three consecutive empty payloads (`\x7b\x7d`), base
delay 0: `allowEmpty = false` fails with the empty-graph error after exactly
3 attempts; `allowEmpty = true` returns the first payload at once. -/
theorem fetch_retry_empty_policy_witness :
    (fetchJsonWithRetry (fun _ => .resp 200 (some (.obj []))) 3 0 false).1 =
      .error (some .emptyGraph) ∧
    countAttempts (fetchJsonWithRetry (fun _ => .resp 200 (some (.obj [])))
      3 0 false).2 = 3 ∧
    fetchJsonWithRetry (fun _ => .resp 200 (some (.obj []))) 3 0 true =
      (.ok (.obj []), [.attempt 0]) :=
  fetch_retry_empty_policy 3 0 (fun _ => .resp 200 (some (.obj [])))
    (fun _ => .obj []) (by omega) (fun _ _ => rfl) (fun _ _ => rfl)

/-! ## C7: the existence probe and HTTP 404 -/

theorem fetchJson_one (env1 : Nat → NetResult) :
    (fetchJsonWithRetry env1 1 0).1 =
      (match attemptOnce env1 0 false with
       | .ok j => .ok j
       | .error e => .error (some e)) := by
  rcases h : attemptOnce env1 0 false with e | j
  · show (retryLoop env1 1 0 false 1 0 none).1 = _
    rw [retryLoop_succ_err env1 1 0 false 0 0 none e h]
    rw [if_neg (by omega)]
    rfl
  · show (retryLoop env1 1 0 false 1 0 none).1 = _
    rw [retryLoop_succ_ok env1 1 0 false 0 0 none j h]

set_option maxRecDepth 10000 in
theorem http_status_not_404 (s : Nat) (h1 : s < 1000) (h2 : s ≠ 404) :
    strContains (errString (.http s)) "HTTP 404" = false := by
  have hall : ∀ s : Nat, s < 1000 → s ≠ 404 →
      strContains ("Error: HTTP " ++ Nat.repr s) "HTTP 404" = false := by
    decide
  exact hall s h1 h2

/-- C7 (confirmed). The probe performs one single-attempt fetch of the
numbered URL and answers `exists: false` exactly for the HTTP 404 failure
(whose rendering is the only one of the reachable errors containing
"HTTP 404"; HTTP statuses are at most three digits): any non-404 status, a
network failure, a malformed 2xx body, and the empty-payload failure all
propagate to the caller; a non-empty 2xx JSON payload yields
`exists: true` with the data. -/
theorem fetchEnrichedIfExists_404_semantics (env : Nat → NetResult)
    (n : Nat) :
    (∀ b, env n = .resp 404 b →
       fetchEnrichedIfExists env n =
         .ok { itExists := false, n := n, data := none }) ∧
    (∀ s b, ¬(200 ≤ s ∧ s ≤ 299) → s ≠ 404 → s < 1000 →
       env n = .resp s b →
       fetchEnrichedIfExists env n = .error (some (.http s))) ∧
    (env n = .netErr →
       fetchEnrichedIfExists env n = .error (some .networkFailure)) ∧
    (∀ s, 200 ≤ s → s ≤ 299 → env n = .resp s none →
       fetchEnrichedIfExists env n = .error (some .parseError)) ∧
    (∀ s j, 200 ≤ s → s ≤ 299 → graphIsEmpty j = true →
       env n = .resp s (some j) →
       fetchEnrichedIfExists env n = .error (some .emptyGraph)) ∧
    (∀ s j, 200 ≤ s → s ≤ 299 → graphIsEmpty j = false →
       env n = .resp s (some j) →
       fetchEnrichedIfExists env n =
         .ok { itExists := true, n := n, data := some j }) := by
  refine ⟨?_, ?_, ?_, ?_, ?_, ?_⟩
  · intro b henv
    have hatt : attemptOnce (fun _ => env n) 0 false = .error (.http 404) := by
      unfold attemptOnce
      rw [henv]
      dsimp only
      rw [if_neg (by omega)]
    unfold fetchEnrichedIfExists
    rw [fetchJson_one, hatt]
    dsimp only
    rw [if_pos (by decide :
      strContains (errOptString (some (.http 404))) "HTTP 404" = true)]
  · intro s b hok hne hlt henv
    have hatt : attemptOnce (fun _ => env n) 0 false = .error (.http s) := by
      unfold attemptOnce
      rw [henv]
      dsimp only
      rw [if_neg hok]
    unfold fetchEnrichedIfExists
    rw [fetchJson_one, hatt]
    dsimp only
    rw [if_neg (by simp [errOptString, http_status_not_404 s hlt hne])]
  · intro henv
    have hatt : attemptOnce (fun _ => env n) 0 false =
        .error .networkFailure := by
      unfold attemptOnce
      rw [henv]
    unfold fetchEnrichedIfExists
    rw [fetchJson_one, hatt]
    dsimp only
    rw [if_neg (by decide :
      ¬ strContains (errOptString (some .networkFailure)) "HTTP 404" = true)]
  · intro s h1 h2 henv
    have hatt : attemptOnce (fun _ => env n) 0 false = .error .parseError := by
      unfold attemptOnce
      rw [henv]
      dsimp only
      rw [if_pos ⟨h1, h2⟩]
    unfold fetchEnrichedIfExists
    rw [fetchJson_one, hatt]
    dsimp only
    rw [if_neg (by decide :
      ¬ strContains (errOptString (some .parseError)) "HTTP 404" = true)]
  · intro s j h1 h2 hemp henv
    have hatt : attemptOnce (fun _ => env n) 0 false = .error .emptyGraph := by
      unfold attemptOnce
      rw [henv]
      dsimp only
      rw [if_pos ⟨h1, h2⟩, hemp]
      rfl
    unfold fetchEnrichedIfExists
    rw [fetchJson_one, hatt]
    dsimp only
    rw [if_neg (by decide :
      ¬ strContains (errOptString (some .emptyGraph)) "HTTP 404" = true)]
  · intro s j h1 h2 hemp henv
    have hatt : attemptOnce (fun _ => env n) 0 false = .ok j := by
      unfold attemptOnce
      rw [henv]
      dsimp only
      rw [if_pos ⟨h1, h2⟩, hemp]
      rfl
    unfold fetchEnrichedIfExists
    rw [fetchJson_one, hatt]

/-- Witness for C7: a 404 probe reports absence; an HTTP 500 probe and a
network failure propagate; a non-empty 200 payload reports existence. -/
theorem fetchEnrichedIfExists_404_semantics_witness :
    fetchEnrichedIfExists (fun _ => .resp 404 none) 9 =
      .ok { itExists := false, n := 9, data := none } ∧
    fetchEnrichedIfExists (fun _ => .resp 500 none) 9 =
      .error (some (.http 500)) ∧
    fetchEnrichedIfExists (fun _ => .netErr) 9 =
      .error (some .networkFailure) ∧
    fetchEnrichedIfExists
      (fun _ => .resp 200 (some (.obj [("nodes", .arr [.obj []])]))) 9 =
      .ok { itExists := true, n := 9,
            data := some (.obj [("nodes", .arr [.obj []])]) } :=
  ⟨(fetchEnrichedIfExists_404_semantics (fun _ => .resp 404 none) 9).1
     none rfl,
   (fetchEnrichedIfExists_404_semantics (fun _ => .resp 500 none) 9).2.1
     500 none (by omega) (by omega) (by omega) rfl,
   (fetchEnrichedIfExists_404_semantics (fun _ => .netErr) 9).2.2.1 rfl,
   (fetchEnrichedIfExists_404_semantics
      (fun _ => .resp 200 (some (.obj [("nodes", .arr [.obj []])]))) 9).2.2.2.2.2
     200 (.obj [("nodes", .arr [.obj []])]) (by omega) (by omega) rfl rfl⟩

/-! ## C3: locator lemmas -/

section Locator

variable (N : Nat) (payload : Nat → JVal) (bodies : Nat → Option JVal)
  (env : Nat → NetResult)
variable (hex : ∀ n, 1 ≤ n → n ≤ N → env n = .resp 200 (some (payload n)))
  (hne : ∀ n, 1 ≤ n → n ≤ N → graphIsEmpty (payload n) = false)
  (habs : ∀ n, N < n → env n = .resp 404 (bodies n))

include hex hne in
theorem probe_ok (n : Nat) (h1 : 1 ≤ n) (h2 : n ≤ N) :
    fetchEnrichedIfExists env n =
      .ok { itExists := true, n := n, data := some (payload n) } := by
  have hatt : attemptOnce (fun _ => env n) 0 false = .ok (payload n) := by
    unfold attemptOnce
    rw [hex n h1 h2]
    dsimp only
    rw [if_pos (by omega : (200:Nat) ≤ 200 ∧ (200:Nat) ≤ 299), hne n h1 h2]
    rfl
  unfold fetchEnrichedIfExists
  rw [fetchJson_one, hatt]

include habs in
theorem probe_miss (n : Nat) (h : N < n) :
    fetchEnrichedIfExists env n =
      .ok { itExists := false, n := n, data := none } := by
  have hatt : attemptOnce (fun _ => env n) 0 false = .error (.http 404) := by
    unfold attemptOnce
    rw [habs n h]
    dsimp only
    rw [if_neg (by omega)]
  unfold fetchEnrichedIfExists
  rw [fetchJson_one, hatt]
  dsimp only
  rw [if_pos (by decide :
    strContains (errOptString (some (.http 404))) "HTTP 404" = true)]

include hex hne habs in
/-- Phase 1 reaches the first absent power of two: starting from `2^k` with
the true latest index `N` between `2^j` and `2^(j+1)`, the loop confirms
every power of two up to `2^j`, probes `2^(j+1)`, and stops there. -/
theorem probeLoop_doubling (j : Nat) (hj : j ≤ 20) (hjN : 2 ^ j ≤ N)
    (hNj : N < 2 ^ (j + 1)) :
    ∀ d k lastOk tr fuel, k + d = j + 1 → d + 1 ≤ fuel →
      probeLoop env fuel (2 ^ k) lastOk tr =
        .ok ((if k ≤ j then 2 ^ j else lastOk), 2 ^ (j + 1),
             tr.reverse ++ (List.range' k (j + 2 - k)).map (fun i => 2 ^ i)) := by
  intro d
  induction d with
  | zero =>
      intro k lastOk tr fuel hk hfuel
      obtain rfl : k = j + 1 := by omega
      obtain ⟨f, rfl⟩ : ∃ f, fuel = f + 1 := ⟨fuel - 1, by omega⟩
      unfold probeLoop
      rw [probe_miss N bodies env habs (2 ^ (j + 1)) hNj]
      dsimp only
      rw [if_neg (by decide : ¬ false = true)]
      rw [if_neg (by omega : ¬ j + 1 ≤ j)]
      rw [show j + 2 - (j + 1) = 1 by omega, List.range'_one,
          List.reverse_cons]
      rfl
  | succ d ih =>
      intro k lastOk tr fuel hk hfuel
      have hkj : k ≤ j := by omega
      obtain ⟨f, rfl⟩ : ∃ f, fuel = f + 1 := ⟨fuel - 1, by omega⟩
      have hk1 : 1 ≤ 2 ^ k := Nat.one_le_two_pow
      have hkN : 2 ^ k ≤ N :=
        le_trans (Nat.pow_le_pow_right (by omega) hkj) hjN
      unfold probeLoop
      rw [probe_ok N payload env hex hne (2 ^ k) hk1 hkN]
      dsimp only
      rw [if_pos rfl]
      rw [if_neg (show ¬ 2 ^ k > 1 <<< 20 by
        rw [Nat.shiftLeft_eq]
        have : 2 ^ k ≤ 2 ^ 20 := Nat.pow_le_pow_right (by omega) (by omega)
        omega)]
      rw [show 2 ^ k * 2 = 2 ^ (k + 1) from (pow_succ 2 k).symm]
      rw [ih (k + 1) (2 ^ k) (2 ^ k :: tr) f (by omega) (by omega)]
      rw [show j + 2 - k = (j + 1 - k) + 1 by omega, List.range'_succ,
          List.map_cons, List.reverse_cons, List.append_assoc,
          List.singleton_append,
          show j + 1 - k = j + 2 - (k + 1) by omega]
      by_cases hc : k + 1 ≤ j
      · rw [if_pos hc, if_pos hkj]
      · rw [if_neg hc, if_pos hkj, show k = j by omega]

include hex hne habs in
/-- Phase 2: a binary search over a range bounded by the invariant finds
exactly the highest existing index `N`, probing only inside `[lo, hi]`. -/
theorem binLoop_correct :
    ∀ fuel lo hi best tr b,
      hi + 1 - lo ≤ 2 ^ fuel - 1 →
      1 ≤ lo → b < lo → b ≤ N →
      best = { itExists := true, n := b, data := some (payload b) } →
      (b = N ∨ (lo ≤ N ∧ N ≤ hi)) →
      ∃ tr2, binLoop env fuel lo hi best tr =
          .ok ({ itExists := true, n := N, data := some (payload N) },
               tr.reverse ++ tr2) ∧
        ∀ m ∈ tr2, lo ≤ m ∧ m ≤ hi := by
  intro fuel
  induction fuel with
  | zero =>
      intro lo hi best tr b hsz hlo hblo hbN hbest hrange
      obtain rfl : b = N := by
        rcases hrange with h | h
        · exact h
        · omega
      refine ⟨[], ?_, by simp⟩
      unfold binLoop
      rw [hbest, List.append_nil]
  | succ f ih =>
      intro lo hi best tr b hsz hlo hblo hbN hbest hrange
      have h2f : 1 ≤ 2 ^ f := Nat.one_le_two_pow
      have hpow : 2 ^ (f + 1) = 2 ^ f + 2 ^ f := by
        rw [pow_succ]; omega
      unfold binLoop
      by_cases hle : lo ≤ hi
      · rw [if_pos hle]
        dsimp only
        by_cases hmn : lo + (hi - lo) / 2 ≤ N
        · rw [probe_ok N payload env hex hne (lo + (hi - lo) / 2)
            (by omega) hmn]
          dsimp only
          rw [if_pos rfl]
          obtain ⟨tr2, hres, hmem⟩ := ih (lo + (hi - lo) / 2 + 1) hi
            { itExists := true, n := lo + (hi - lo) / 2,
              data := some (payload (lo + (hi - lo) / 2)) }
            ((lo + (hi - lo) / 2) :: tr) (lo + (hi - lo) / 2)
            (by omega) (by omega) (by omega) hmn rfl
            (by
              by_cases hm : lo + (hi - lo) / 2 = N
              · exact Or.inl hm
              · refine Or.inr ⟨by omega, ?_⟩
                rcases hrange with h | h
                · omega
                · exact h.2)
          refine ⟨(lo + (hi - lo) / 2) :: tr2, ?_, ?_⟩
          · rw [hres, List.reverse_cons, List.append_assoc,
                List.singleton_append]
          · intro m hm
            rcases List.mem_cons.mp hm with h | h
            · omega
            · have := hmem m h
              omega
        · rw [probe_miss N bodies env habs (lo + (hi - lo) / 2) (by omega)]
          dsimp only
          rw [if_neg (by decide : ¬ false = true)]
          obtain ⟨tr2, hres, hmem⟩ := ih lo (lo + (hi - lo) / 2 - 1) best
            ((lo + (hi - lo) / 2) :: tr) b
            (by omega) hlo hblo hbN hbest
            (by
              rcases hrange with h | h
              · exact Or.inl h
              · exact Or.inr ⟨h.1, by omega⟩)
          refine ⟨(lo + (hi - lo) / 2) :: tr2, ?_, ?_⟩
          · rw [hres, List.reverse_cons, List.append_assoc,
                List.singleton_append]
          · intro m hm
            rcases List.mem_cons.mp hm with h | h
            · omega
            · have := hmem m h
              omega
      · rw [if_neg hle]
        obtain rfl : b = N := by
          rcases hrange with h | h
          · exact h
          · omega
        refine ⟨[], ?_, by simp⟩
        rw [hbest, List.append_nil]

include hex hne habs in
/-- C3 (amended). For a backend materializing non-empty iteration files
`it1.json .. itN.json` with every higher index answering 404, and
`N < 2 ^ 21` (below where the `1 <<< 20` safety ceiling caps the doubling),
the locator returns the payload of exactly index `N`, tagged
`it\x7bN\x7d.json:\x7bnodes\x7d:\x7bedges\x7d`; its phase-1 probes are
exactly the doubling sequence `2^0 .. 2^(log2 N + 1)` ending at the first
absent index, and after re-probing the last confirmed index every
binary-search probe lies strictly between the last confirmed-existing power
of two and the first confirmed-absent one. -/
theorem findLatest_locator_correct (hN1 : 1 ≤ N) (hN2 : N < 2 ^ 21) :
    ∃ r : LocatorResult,
      findLatestEnrichedCandidate env = .ok r ∧
      r.cand.data = some (payload N) ∧
      r.cand.tag = "it" ++ Nat.repr N ++ ".json:" ++
        Nat.repr (arrOrNil (jget (payload N) "nodes")).length ++ ":" ++
        Nat.repr (edgesOrLinks (payload N)).length ∧
      r.phase1Probes = (List.range (Nat.log 2 N + 2)).map (fun k => 2 ^ k) ∧
      r.reProbe = 2 ^ Nat.log 2 N ∧
      (∀ m ∈ r.binProbes,
         2 ^ Nat.log 2 N < m ∧ m < 2 ^ (Nat.log 2 N + 1)) := by
  have hJN : 2 ^ Nat.log 2 N ≤ N := Nat.pow_log_le_self 2 (by omega)
  have hNJ : N < 2 ^ (Nat.log 2 N + 1) :=
    Nat.lt_pow_succ_log_self (by omega) N
  have hJ20 : Nat.log 2 N ≤ 20 := by
    by_contra hc
    have : 2 ^ 21 ≤ 2 ^ Nat.log 2 N :=
      Nat.pow_le_pow_right (by omega) (by omega)
    omega
  have hJpos : 1 ≤ 2 ^ Nat.log 2 N := Nat.one_le_two_pow
  have hJsucc : 2 ^ (Nat.log 2 N + 1) = 2 ^ Nat.log 2 N + 2 ^ Nat.log 2 N := by
    rw [pow_succ]; omega
  have hphase1 := probeLoop_doubling N payload bodies env hex hne habs
    (Nat.log 2 N) hJ20 hJN hNJ (Nat.log 2 N + 1) 0 0 [] 25 (by omega)
    (by omega)
  rw [pow_zero, if_pos (by omega)] at hphase1
  have hbin := binLoop_correct N payload bodies env hex hne habs 25
    (2 ^ Nat.log 2 N + 1) (2 ^ (Nat.log 2 N + 1) - 1)
    { itExists := true, n := 2 ^ Nat.log 2 N,
      data := some (payload (2 ^ Nat.log 2 N)) }
    [] (2 ^ Nat.log 2 N)
    (by
      have h25 : (2:Nat) ^ Nat.log 2 N ≤ 2 ^ 25 :=
        Nat.pow_le_pow_right (by omega) (by omega)
      have h25b : (1:Nat) ≤ 2 ^ 25 := Nat.one_le_two_pow
      omega)
    (by omega) (by omega) hJN rfl
    (by
      by_cases hc : 2 ^ Nat.log 2 N = N
      · exact Or.inl hc
      · exact Or.inr ⟨by omega, by omega⟩)
  obtain ⟨tr2, hres, hmem⟩ := hbin
  unfold findLatestEnrichedCandidate
  rw [hphase1]
  dsimp only
  rw [if_neg (by omega : ¬ 2 ^ Nat.log 2 N = 0)]
  rw [probe_ok N payload env hex hne (2 ^ Nat.log 2 N) hJpos hJN]
  dsimp only
  rw [hres]
  dsimp only
  refine ⟨_, rfl, rfl, rfl, ?_, rfl, ?_⟩
  · show List.reverse [] ++
        (List.range' 0 (Nat.log 2 N + 2)).map (fun i => 2 ^ i) = _
    rw [List.reverse_nil, List.nil_append, List.range_eq_range']
  · intro m hm
    have hm2 : m ∈ tr2 := by
      simpa using hm
    have := hmem m hm2
    omega

end Locator

/-- Non-empty payload used by the C3 locator counterexample. -/
def payCex : JVal := .obj [("nodes", .arr [.obj [("id", .str "n")]])]

/-- A backend with iterations `1 .. 2^21 + 1` present: one past the reach of
the doubling loop with its `1 <<< 20` safety ceiling. -/
def envCeiling : Nat → NetResult :=
  fun n => if 1 ≤ n ∧ n ≤ 2 ^ 21 + 1 then .resp 200 (some payCex)
           else .resp 404 none

/-- C3 (counterexample). With iterations `1 .. N` for `N = 2^21 + 1` all
present and non-empty, the locator stops at the safety ceiling and returns
index `2^21 = 2097152` (tag `it2097152.json:1:0`), not index
`N = 2097153` as the claim — quantified over every `N ≥ 1` — demands. -/
theorem findLatest_ceiling_claim_false :
    (match findLatestEnrichedCandidate envCeiling with
     | .ok r => r.cand.tag
     | .error _ => "error") = "it2097152.json:1:0" ∧
    "it2097152.json:1:0" ≠ "it" ++ Nat.repr (2 ^ 21 + 1) ++ ".json:1:0" :=
  ⟨rfl, by decide⟩

/-- Payloads for the C3 witness: one node carrying the iteration index. -/
def pay7 : Nat → JVal :=
  fun n => .obj [("nodes", .arr [.obj [("id", .str (Nat.repr n))]])]

/-- A backend with exactly the iterations `1 .. 7` present. -/
def env7 : Nat → NetResult :=
  fun n => if 1 ≤ n ∧ n ≤ 7 then .resp 200 (some (pay7 n))
           else .resp 404 none

/-- Witness for the amended C3 theorem at `N = 7`: the locator returns
index 7 with tag `it7.json:1:0`, phase 1 probes exactly `1, 2, 4, 8`, the
re-probe is 4, and every binary-search probe lies in `(4, 8)`. -/
theorem findLatest_locator_correct_witness :
    ∃ r : LocatorResult, findLatestEnrichedCandidate env7 = .ok r ∧
      r.cand.data = some (pay7 7) ∧ r.cand.tag = "it7.json:1:0" ∧
      r.phase1Probes = [1, 2, 4, 8] ∧ r.reProbe = 4 ∧
      (∀ m ∈ r.binProbes, 4 < m ∧ m < 8) := by
  have hlog : Nat.log 2 7 = 2 :=
    Nat.log_eq_of_pow_le_of_lt_pow (by omega) (by omega)
  obtain ⟨r, hr, hdata, htag, hp, hre, hbin⟩ :=
    findLatest_locator_correct 7 pay7 (fun _ => none) env7
      (by
        intro n h1 h2
        unfold env7
        rw [if_pos ⟨h1, h2⟩])
      (fun n _ _ => rfl)
      (by
        intro n h
        unfold env7
        rw [if_neg (by omega)])
      (by omega) (by omega)
  refine ⟨r, hr, hdata, ?_, ?_, ?_, ?_⟩
  · rw [htag]
    rfl
  · rw [hp, hlog]
    rfl
  · rw [hre, hlog]
    norm_num
  · intro m hm
    have h2 := hbin m hm
    rw [hlog] at h2
    refine ⟨?_, ?_⟩
    · have := h2.1
      norm_num at this
      omega
    · have := h2.2
      norm_num at this
      omega

/-! ## C4: lifecycle exclusivity -/

/-- A schedule of the two click handlers massing-then-enriched in which the
enriched handler runs during the massing handler's awaited load: the massing
handler then resumes and installs its poller after the enriched handler
already stopped it, leaving both intervals installed. -/
def overlapSchedule : List (List PAction) :=
  [[.stop .enriched, .stop .masterplan],
   [.stop .massing, .stop .masterplan, .stop .enriched],
   [.stop .massing],
   [.activate .massing],
   [.activate .enriched]]

/-- C4 (counterexample). The at-most-one-poller invariant does not hold for
every event-loop schedule of tab-switch events: `overlapSchedule` is a legal
interleaving of the massing and enriched click handlers (each handler's
segments in order, merged at the `await` suspension points) that ends with
both the massing and the enriched interval timers installed. -/
theorem lifecycle_overlap_claim_false :
    ¬ (∀ sched : List (List PAction),
        Interleaving (clickSegs TabId.massing) (clickSegs TabId.enriched)
          sched →
        pollCount (runActions initUISt.poll sched.flatten) ≤ 1) := by
  intro h
  have hI : Interleaving (clickSegs TabId.massing) (clickSegs TabId.enriched)
      overlapSchedule :=
    .left (.right (.left (.left (.right .nil))))
  exact absurd (h overlapSchedule hI) (by decide)

/-- C4 (amended). When each tab-switch handler runs to completion before the
next begins (no overlap at the `await` points), at most one poller is ever
installed: a single click from any state leaves at most one poller, any
non-empty serialized click sequence leaves at most one, switching from
massing (polling) to enriched (polling) leaves exactly the enriched poller
running, and a tick of a stopped massing detector performs no reload at all
whatever the backend reports. -/
theorem lifecycle_exclusive :
    (∀ (s : PollSt) (t : TabId), pollCount (clickTab s t) ≤ 1) ∧
    (∀ (t : TabId) (ts : List TabId) (s : PollSt),
       pollCount ((t :: ts).foldl clickTab s) ≤ 1) ∧
    (∀ s : PollSt, (clickTab s TabId.enriched).enrichedOn = true ∧
       (clickTab s TabId.enriched).massingOn = false ∧
       (clickTab s TabId.enriched).mpOn = false) ∧
    (∀ (st : UISt) (net : NetResult), st.poll.massingOn = false →
       massingPollTick net st = (st, 0)) := by
  have h1 : ∀ (s : PollSt) (t : TabId), pollCount (clickTab s t) ≤ 1 := by
    intro s t
    obtain ⟨a, b, c⟩ := s
    cases t <;> cases a <;> cases b <;> cases c <;> decide
  refine ⟨h1, ?_, ?_, ?_⟩
  · intro t ts
    induction ts generalizing t with
    | nil => intro s; exact h1 s t
    | cons t' ts' ih =>
        intro s
        show pollCount ((t' :: ts').foldl clickTab (clickTab s t)) ≤ 1
        exact ih t' (clickTab s t)
  · intro s
    obtain ⟨a, b, c⟩ := s
    exact ⟨rfl, rfl, rfl⟩
  · intro st net h
    unfold massingPollTick
    rw [h]
    rw [if_neg (by decide : ¬ false = true)]

/-- Witness for the amended C4 theorem: a massing click from the
all-pollers-on state, a tick of the stopped massing detector, and a
serialized three-click sequence. -/
theorem lifecycle_exclusive_witness :
    pollCount (clickTab
      { massingOn := true, enrichedOn := true, mpOn := true }
      TabId.massing) ≤ 1 ∧
    massingPollTick .netErr initUISt = (initUISt, 0) ∧
    pollCount ([TabId.massing, TabId.enriched, TabId.context].foldl
      clickTab initUISt.poll) ≤ 1 :=
  ⟨lifecycle_exclusive.1 _ _,
   lifecycle_exclusive.2.2.2 initUISt .netErr rfl,
   lifecycle_exclusive.2.1 TabId.massing [TabId.enriched, TabId.context]
     initUISt.poll⟩

/-! ## C8: detector change suppression -/

/-- The C8 claim as stated for the mtime detector: any queried signal that
differs (strict inequality) from the stored value triggers exactly one
reload. -/
def claimC8 : Prop :=
  ∀ (st : UISt) (s : Nat) (m : JVal),
    st.poll.massingOn = true → jsStrictEq m st.massingLast = false →
    (massingPollTick (.resp s (some (.obj [("mtime", m)]))) st).2 = 1

/-- A running massing detector whose stored mtime is 5. -/
def stStored5 : UISt :=
  { poll := { massingOn := true, enrichedOn := false, mpOn := false },
    massingLast := .num 5, mpLast := .num 0, enrichedLast := none }

/-- C8 (counterexample). With stored mtime 5, a tick whose queried payload
is `\x7b mtime: 0 \x7d` carries a signal differing from the stored value,
yet triggers zero reloads: the `if (mtime && ...)` guard discards falsy
signals before comparing. -/
theorem detector_suppression_claim_false : ¬ claimC8 := by
  intro h
  exact absurd (h stStored5 200 (.num 0) rfl rfl) (by decide)

/-- C8 (amended). For a running massing detector, a tick whose queried
`mtime` strictly equals the stored value triggers zero reloads; a truthy
(non-zero, present) `mtime` differing from the stored value triggers exactly
one reload and stores the new signal in the returned state (i.e. before any
further tick is processed); a falsy `mtime` (0, null or missing) triggers
zero reloads even when it differs from the stored value. For the running
enriched detector, a successfully computed tag equal to the stored tag
triggers zero reloads; a differing tag triggers exactly one reload and
stores the tag. -/
theorem detector_change_suppression :
    (∀ (st : UISt) (s : Nat) (j : JVal), st.poll.massingOn = true →
       jsStrictEq ((jget j "mtime").getD .null) st.massingLast = true →
       massingPollTick (.resp s (some j)) st = (st, 0)) ∧
    (∀ (st : UISt) (s : Nat) (j : JVal), st.poll.massingOn = true →
       truthy ((jget j "mtime").getD .null) = true →
       jsStrictEq ((jget j "mtime").getD .null) st.massingLast = false →
       massingPollTick (.resp s (some j)) st =
         ({ st with massingLast := (jget j "mtime").getD .null }, 1)) ∧
    (∀ (st : UISt) (s : Nat) (j : JVal), st.poll.massingOn = true →
       truthy ((jget j "mtime").getD .null) = false →
       massingPollTick (.resp s (some j)) st = (st, 0)) ∧
    (∀ (st : UISt) (tag : String), st.poll.enrichedOn = true →
       st.enrichedLast = some tag →
       enrichedPollTick (.ok tag) st = (st, 0)) ∧
    (∀ (st : UISt) (tag : String), st.poll.enrichedOn = true →
       st.enrichedLast ≠ some tag →
       enrichedPollTick (.ok tag) st =
         ({ st with enrichedLast := some tag }, 1)) := by
  refine ⟨?_, ?_, ?_, ?_, ?_⟩
  · intro st s j hon heq
    unfold massingPollTick
    rw [hon, if_pos rfl]
    dsimp only
    rw [heq, Bool.not_true, Bool.and_false,
        if_neg (by decide : ¬ false = true)]
  · intro st s j hon htr hne
    unfold massingPollTick
    rw [hon, if_pos rfl]
    dsimp only
    rw [htr, hne, Bool.not_false, Bool.and_true,
        if_pos (rfl : true = true)]
  · intro st s j hon htr
    unfold massingPollTick
    rw [hon, if_pos rfl]
    dsimp only
    rw [htr, Bool.false_and, if_neg (by decide : ¬ false = true)]
  · intro st tag hon heq
    unfold enrichedPollTick
    rw [hon, if_pos rfl]
    dsimp only
    rw [if_pos (by rw [heq]; exact beq_self_eq_true _)]
  · intro st tag hon hne
    unfold enrichedPollTick
    rw [hon, if_pos rfl]
    dsimp only
    rw [if_neg (by
      rw [beq_eq_false_iff_ne.mpr hne]
      exact Bool.false_ne_true)]

/-- A running enriched detector whose stored tag is `api:3:2:it4.json`. -/
def stTag4 : UISt :=
  { poll := { massingOn := false, enrichedOn := true, mpOn := false },
    massingLast := .num 0, mpLast := .num 0,
    enrichedLast := some "api:3:2:it4.json" }

/-- Witness for the amended C8 theorem: stored mtime 5, queried mtime 7 —
exactly one reload and the store now holds 7; stored mtime 5, queried
mtime 5 — no reload; the enriched detector with an unchanged tag — no
reload. -/
theorem detector_change_suppression_witness :
    massingPollTick (.resp 200 (some (.obj [("mtime", .num 7)])))
        stStored5 = ({ stStored5 with massingLast := .num 7 }, 1) ∧
    massingPollTick (.resp 200 (some (.obj [("mtime", .num 5)])))
        stStored5 = (stStored5, 0) ∧
    enrichedPollTick (.ok "api:3:2:it4.json") stTag4 = (stTag4, 0) :=
  ⟨detector_change_suppression.2.1 stStored5 200
     (.obj [("mtime", .num 7)]) rfl rfl rfl,
   detector_change_suppression.1 stStored5 200
     (.obj [("mtime", .num 5)]) rfl rfl,
   detector_change_suppression.2.2.2.1 stTag4 "api:3:2:it4.json" rfl rfl⟩

/-! ## C9: detector restart seeding -/

/-- The C9 claim as stated, at its seed-failure half: after `start()` the
stored revision is determined solely by the seed query, so a failed seed
leaves the neutral unset value 0. -/
def claimC9 : Prop :=
  ∀ st : UISt, (startMassingPolling .netErr st).massingLast = .num 0

/-- C9 (counterexample). Restarting the massing detector with the seed
fetch failing does not reset the stored mtime to the neutral 0: the empty
`catch \x7b\x7d` keeps the previous value (here 5), which therefore survives
a stop-then-start. -/
theorem detector_seed_claim_false : ¬ claimC9 := by
  intro h
  have h2 : (JVal.num 5) = .num 0 := h stStored5
  exact absurd (JVal.num.inj h2) (by decide)

/-- C9 (amended). On a successful seed response the stored mtime is a
function of that response alone — the fetched `mtime` when truthy, else the
neutral 0 — so the prior value does not survive; but when the seed fetch or
its JSON parse throws, the previous stored value is retained (not reset to
the neutral value). `start()` always installs the poller, and `stop()`
leaves the stored value untouched. -/
theorem detector_seed_semantics :
    (∀ (st : UISt) (s : Nat) (j0 : JVal),
       (startMassingPolling (.resp s (some j0)) st).massingLast =
         (if truthy ((jget j0 "mtime").getD .null) = true
          then (jget j0 "mtime").getD .null else .num 0)) ∧
    (∀ st : UISt,
       (startMassingPolling .netErr st).massingLast = st.massingLast) ∧
    (∀ (st : UISt) (s : Nat),
       (startMassingPolling (.resp s none) st).massingLast =
         st.massingLast) ∧
    (∀ (st : UISt) (net : NetResult),
       (startMassingPolling net st).poll.massingOn = true) ∧
    (∀ st : UISt, (stopMassingPolling st).massingLast = st.massingLast) := by
  refine ⟨fun st s j0 => rfl, fun st => rfl, fun st s => rfl, ?_, fun st => rfl⟩
  intro st net
  cases net with
  | netErr => rfl
  | resp s body => cases body <;> rfl

end GraphSync
